import Mathlib

/-!
Shallow embedding of the DarthVoice audio transform (src/main.cpp).

The C++ `double` arithmetic is idealised as exact rational arithmetic (ℚ);
the source's literal `PI = 3.14159265358979323846` is kept as the exact
rational it denotes, so every derived constant stays rational.  16-bit PCM
bytes are modelled as natural numbers; a `qint16` reinterpretation of two
little-endian bytes is `toSigned16`, and writing a `qint16` back out is its
two's-complement little-endian byte pair (`encodeBytes`).  The C++
`static_cast<qint16>(double)` truncates toward zero (`truncQ`); values out of
the 16-bit range would be undefined behaviour in the source and are modelled
by the two's-complement byte split.
-/

namespace DarthVoice

/-- `const double PI = 3.14159265358979323846` (src/main.cpp:17), as the exact
rational value of the source literal. -/
def PI : ℚ := 314159265358979323846 / 100000000000000000000

/-- `const int SAMPLE_RATE = 44100` (src/main.cpp:18). -/
def SAMPLE_RATE : ℕ := 44100

/-- Truncation toward zero, the semantics of C++ `static_cast` from a
floating value to an integer type (for in-range values). -/
def truncQ (q : ℚ) : ℤ := if 0 ≤ q then ⌊q⌋ else ⌈q⌉

/-- Reinterpret a natural number as a signed 16-bit value (two's complement),
as `reinterpret_cast<const qint16*>` does on a little-endian pair. -/
def toSigned16 (n : ℕ) : ℤ :=
  if n % 65536 < 32768 then ((n % 65536 : ℕ) : ℤ) else ((n % 65536 : ℕ) : ℤ) - 65536

/-- The two little-endian bytes of a `qint16` value, as appended by
`processedData.append(reinterpret_cast<char*>(&outputSample), 2)`
(src/main.cpp:116). -/
def encodeBytes (n : ℤ) : List ℕ :=
  [(n % 65536).toNat % 256, (n % 65536).toNat / 256]

/-- Decode a little-endian byte stream into 16-bit samples, as
`reinterpret_cast<const qint16*>(data)` with `sampleCount = len / 2`
(src/main.cpp:98-99): pairs of bytes become samples, a trailing odd byte is
not read. -/
def decodeSamples : List ℕ → List ℤ
  | b0 :: b1 :: rest => toSigned16 (b0 + 256 * b1) :: decodeSamples rest
  | _ => []

/-- The normalisation `double sample = samples[i] / 32768.0`
(src/main.cpp:106). -/
def normalize (s : ℤ) : ℚ := (s : ℚ) / 32768

/-- State of `class LowPassFilter` (src/main.cpp:23-40). -/
structure LowPassFilter where
  alpha : ℚ
  prev : ℚ
  deriving DecidableEq

/-- `LowPassFilter(double cutoffFrequency, double sampleRate)`
(src/main.cpp:25-29): `RC = 1/(2·PI·cutoff)`, `alpha = 1/(RC·sampleRate+1)`,
`prev = 0`.  No parameter validation is performed by the source. -/
def LowPassFilter.create (cutoffFrequency sampleRate : ℚ) : LowPassFilter :=
  { alpha := 1 / (1 / (2 * PI * cutoffFrequency) * sampleRate + 1)
    prev := 0 }

/-- `double LowPassFilter::process(double input)` (src/main.cpp:31-35). -/
def LowPassFilter.process (f : LowPassFilter) (input : ℚ) : ℚ × LowPassFilter :=
  let output := f.prev + f.alpha * (input - f.prev)
  (output, { f with prev := output })

/-- Iterate `LowPassFilter.process` over a list of samples, returning the
outputs in order together with the final filter state. -/
def LowPassFilter.processList (f : LowPassFilter) : List ℚ → List ℚ × LowPassFilter
  | [] => ([], f)
  | x :: xs =>
    let r := f.process x
    let rest := r.2.processList xs
    (r.1 :: rest.1, rest.2)

/-- State of `class PitchShifter` (src/main.cpp:43-62).  The unused C++ field
`phase` carries no behaviour and is omitted. -/
structure PitchShifter where
  factor : ℚ
  buffer : List ℚ
  deriving DecidableEq

/-- `PitchShifter(double pitchFactor)` (src/main.cpp:45): stores the factor,
starts with an empty buffer.  No parameter validation is performed. -/
def PitchShifter.create (pitchFactor : ℚ) : PitchShifter :=
  { factor := pitchFactor, buffer := [] }

/-- The comparison bound `static_cast<size_t>(1.0 / factor * SAMPLE_RATE)`
(src/main.cpp:50); for a positive factor the cast truncates toward zero,
i.e. takes the floor. -/
def PitchShifter.threshold (s : PitchShifter) : ℕ :=
  (⌊1 / s.factor * (SAMPLE_RATE : ℚ)⌋).toNat

/-- `double PitchShifter::process(double input)` (src/main.cpp:48-56):
push the input at the back; if the buffer now exceeds the threshold, pop and
return the front element, else return silence. -/
def PitchShifter.process (s : PitchShifter) (input : ℚ) : ℚ × PitchShifter :=
  let buf := s.buffer ++ [input]
  if buf.length > s.threshold then
    (buf.headI, { s with buffer := buf.tail })
  else
    (0, { s with buffer := buf })

/-- Iterate `PitchShifter.process` over a list of samples. -/
def PitchShifter.processList (s : PitchShifter) : List ℚ → List ℚ × PitchShifter
  | [] => ([], s)
  | x :: xs =>
    let r := s.process x
    let rest := r.2.processList xs
    (r.1 :: rest.1, rest.2)

/-- State of `class AudioProcessor` (src/main.cpp:65-134): the open/closed
mode of the underlying `QIODevice`, the two DSP components, and the byte
FIFO `outputBuffer`. -/
structure AudioProcessor where
  isOpen : Bool
  filter : LowPassFilter
  shifter : PitchShifter
  outputBuffer : List ℕ
  deriving DecidableEq

/-- The `AudioProcessor` constructor (src/main.cpp:68-73):
`filter(300.0, SAMPLE_RATE)`, `shifter(0.8)`, empty output buffer, and
`open(QIODevice::ReadWrite)`. -/
def AudioProcessor.create : AudioProcessor :=
  { isOpen := true
    filter := LowPassFilter.create 300 (SAMPLE_RATE : ℚ)
    shifter := PitchShifter.create (8 / 10)
    outputBuffer := [] }

/-- `void startProcessing()` (src/main.cpp:76-78): only re-opens the device;
no member is reset. -/
def AudioProcessor.startProcessing (p : AudioProcessor) : AudioProcessor :=
  { p with isOpen := true }

/-- `void stopProcessing()` (src/main.cpp:81-83): only closes the device;
no member is cleared. -/
def AudioProcessor.stopProcessing (p : AudioProcessor) : AudioProcessor :=
  { p with isOpen := false }

/-- `qint64 readData(char* data, qint64 maxlen)` (src/main.cpp:86-94):
if the output buffer is empty return 0 bytes, else return
`min(maxlen, size)` bytes from the front and remove them. -/
def AudioProcessor.readData (p : AudioProcessor) (maxlen : ℕ) : List ℕ × AudioProcessor :=
  if p.outputBuffer.isEmpty then ([], p)
  else
    let bytesToRead := min maxlen p.outputBuffer.length
    (p.outputBuffer.take bytesToRead,
     { p with outputBuffer := p.outputBuffer.drop bytesToRead })

/-- The per-sample loop body of `writeData` (src/main.cpp:104-117): normalise
`sample / 32768.0`, pitch-shift, low-pass filter, cast the scaled result back
to `qint16` and append its two bytes. -/
def processSamples (filt : LowPassFilter) (shft : PitchShifter) :
    List ℤ → List ℕ × LowPassFilter × PitchShifter
  | [] => ([], filt, shft)
  | s :: rest =>
    let sample : ℚ := normalize s
    let rs := shft.process sample
    let rf := filt.process rs.1
    let outputSample := truncQ (rf.1 * 32767)
    let tailRes := processSamples rf.2 rs.2 rest
    (encodeBytes outputSample ++ tailRes.1, tailRes.2)

/-- `qint64 writeData(const char* data, qint64 len)` (src/main.cpp:97-122):
decode `len / 2` samples, run each through the pipeline, append the processed
bytes to the output buffer and return `len`. -/
def AudioProcessor.writeData (p : AudioProcessor) (data : List ℕ) : ℕ × AudioProcessor :=
  let res := processSamples p.filter p.shifter (decodeSamples data)
  (data.length,
   { p with
      filter := res.2.1
      shifter := res.2.2
      outputBuffer := p.outputBuffer ++ res.1 })

/-- The sample re-encoding in the claim's words: `round(value * 32767.0)`,
clamped to the 16-bit signed range.  Stated only to be compared with the
source's conversion, which is `truncQ (value * 32767)` with no clamping. -/
def specEncodeSample (v : ℚ) : ℤ :=
  max (-32768) (min 32767 (round (v * 32767)))

/-- The per-sample loop of the write path as the claim describes it:
identical to `processSamples` except that the re-encoding uses
`specEncodeSample` (round + clamp) instead of the source's truncation. -/
def specProcessSamples (filt : LowPassFilter) (shft : PitchShifter) :
    List ℤ → List ℕ × LowPassFilter × PitchShifter
  | [] => ([], filt, shft)
  | s :: rest =>
    let sample : ℚ := normalize s
    let rs := shft.process sample
    let rf := filt.process rs.1
    let outputSample := specEncodeSample rf.1
    let tailRes := specProcessSamples rf.2 rs.2 rest
    (encodeBytes outputSample ++ tailRes.1, tailRes.2)

/-- The write path as the claim describes it (round + clamp re-encoding);
compared against `AudioProcessor.writeData`. -/
def AudioProcessor.specWriteData (p : AudioProcessor) (data : List ℕ) :
    ℕ × AudioProcessor :=
  let res := specProcessSamples p.filter p.shifter (decodeSamples data)
  (data.length,
   { p with
      filter := res.2.1
      shifter := res.2.2
      outputBuffer := p.outputBuffer ++ res.1 })

/-- LowPassFilter configuration in the claim's words: reject
`cutoffFrequencyHz <= 0` or `sampleRateHz <= 0`, otherwise construct as the
source does.  Stated only to be compared with `LowPassFilter.create`, which
performs no validation. -/
def specConfigureLowPass (cutoffFrequency sampleRate : ℚ) : Option LowPassFilter :=
  if cutoffFrequency ≤ 0 ∨ sampleRate ≤ 0 then none
  else some (LowPassFilter.create cutoffFrequency sampleRate)

/-- PitchShifter configuration in the claim's words: reject
`pitchRatio <= 0`, otherwise construct as the source does. -/
def specConfigurePitch (pitchRatio : ℚ) : Option PitchShifter :=
  if pitchRatio ≤ 0 then none else some (PitchShifter.create pitchRatio)

/-! ## Helper lemmas -/

/-- The threshold of the source's factor-0.8 shifter is
`⌊(1/0.8)·44100⌋ = 55125`, independently of the buffer contents. -/
lemma threshold_eight_tenths (b : List ℚ) :
    (PitchShifter.mk (8 / 10) b).threshold = 55125 := by
  simp only [PitchShifter.threshold, SAMPLE_RATE]
  norm_num
  decide

/-- The exact rational value of the default filter coefficient
`alpha = 1/(1/(2·PI·300)·44100 + 1)`. -/
lemma alpha_default_eq :
    (LowPassFilter.create 300 (SAMPLE_RATE : ℚ)).alpha =
      157079632679489661923 / 3832079632679489661923 := by
  norm_num [LowPassFilter.create, PI, SAMPLE_RATE]

/-- `LowPassFilter.processList` computes exactly the first-order recurrence:
the i-th output is the fold of the step function over the first `i+1` inputs,
and the final state carries the fold over all inputs. -/
lemma lpf_processList_eq (xs : List ℚ) : ∀ f : LowPassFilter,
    f.processList xs =
      ((List.range xs.length).map
        (fun i => (xs.take (i + 1)).foldl (fun p x => p + f.alpha * (x - p)) f.prev),
       ⟨f.alpha, xs.foldl (fun p x => p + f.alpha * (x - p)) f.prev⟩) := by
  induction xs with
  | nil => intro f; simp [LowPassFilter.processList]
  | cons x xs ih =>
    intro f
    simp only [LowPassFilter.processList, LowPassFilter.process, ih]
    simp [List.range_succ_eq_map, List.map_map, Function.comp_def, List.take_succ_cons,
      List.foldl_cons]

/-- One filter step is a convex combination of the previous output and the
input, so it stays inside `[-1, 1]`. -/
lemma lpf_step_bounds {a p x : ℚ} (ha0 : 0 < a) (ha1 : a ≤ 1)
    (hp0 : -1 ≤ p) (hp1 : p ≤ 1) (hx0 : -1 ≤ x) (hx1 : x ≤ 1) :
    -1 ≤ p + a * (x - p) ∧ p + a * (x - p) ≤ 1 := by
  constructor <;> nlinarith

/-- Range invariant for the whole filter run, generalised over the starting
state. -/
lemma lpf_processList_bounds (xs : List ℚ) : ∀ f : LowPassFilter,
    0 < f.alpha → f.alpha ≤ 1 → -1 ≤ f.prev → f.prev ≤ 1 →
    (∀ x ∈ xs, -1 ≤ x ∧ x ≤ 1) →
    (∀ y ∈ (f.processList xs).1, -1 ≤ y ∧ y ≤ 1) ∧
    -1 ≤ (f.processList xs).2.prev ∧ (f.processList xs).2.prev ≤ 1 := by
  induction xs with
  | nil =>
    intro f h1 h2 h3 h4 _
    simp only [LowPassFilter.processList]
    exact ⟨by simp, h3, h4⟩
  | cons x xs ih =>
    intro f h1 h2 h3 h4 h5
    obtain ⟨hx0, hx1⟩ := h5 x (by simp)
    obtain ⟨hs0, hs1⟩ := lpf_step_bounds h1 h2 h3 h4 hx0 hx1
    have hrest := ih ⟨f.alpha, f.prev + f.alpha * (x - f.prev)⟩ h1 h2 hs0 hs1
      (fun z hz => h5 z (by simp [hz]))
    simp only [LowPassFilter.processList, LowPassFilter.process]
    refine ⟨?_, hrest.2⟩
    intro y hy
    rcases List.mem_cons.mp hy with hy | hy
    · exact hy ▸ ⟨hs0, hs1⟩
    · exact hrest.1 y hy

/-- `PitchShifter.process` never changes the factor, hence never changes the
threshold. -/
lemma pitch_process_factor (s : PitchShifter) (x : ℚ) :
    (s.process x).2.factor = s.factor := by
  simp only [PitchShifter.process]
  split <;> rfl

/-- The buffer length after one shifter step: grows by one, unless the
appended buffer exceeds the threshold, in which case the head is removed and
the length is back to where it started. -/
lemma pitch_process_length (s : PitchShifter) (x : ℚ) :
    (s.process x).2.buffer.length =
      if s.buffer.length + 1 > s.threshold then s.buffer.length
      else s.buffer.length + 1 := by
  simp only [PitchShifter.process, List.length_append, List.length_singleton]
  split <;> simp_all [List.length_tail]

/-- If the buffer starts no longer than the threshold, it never exceeds the
threshold after any run of the shifter. -/
lemma pitch_processList_le (xs : List ℚ) : ∀ s : PitchShifter,
    s.buffer.length ≤ s.threshold →
    (s.processList xs).2.buffer.length ≤ s.threshold := by
  induction xs with
  | nil => intro s h; simpa [PitchShifter.processList] using h
  | cons x xs ih =>
    intro s h
    simp only [PitchShifter.processList]
    have hf : (s.process x).2.threshold = s.threshold := by
      simp only [PitchShifter.threshold, pitch_process_factor]
    rw [← hf]
    apply ih
    rw [hf, pitch_process_length]
    split
    · exact h
    · omega

/-- `PitchShifter.processList` preserves the factor. -/
lemma pitch_processList_factor (xs : List ℚ) : ∀ s : PitchShifter,
    (s.processList xs).2.factor = s.factor := by
  induction xs with
  | nil => intro s; rfl
  | cons x xs ih =>
    intro s
    simp only [PitchShifter.processList]
    rw [ih, pitch_process_factor]

/-- The interleaved per-sample loop of `writeData` decomposes into: run every
normalised sample through the shifter, then run the shifter's outputs through
the filter, then encode each filter output by truncation. -/
lemma processSamples_eq (samples : List ℤ) :
    ∀ (filt : LowPassFilter) (shft : PitchShifter),
    processSamples filt shft samples =
      (((filt.processList
            (shft.processList (samples.map normalize)).1).1.map
          (fun v => encodeBytes (truncQ (v * 32767)))).flatten,
       (filt.processList
          (shft.processList (samples.map normalize)).1).2,
       (shft.processList (samples.map normalize)).2) := by
  induction samples with
  | nil =>
    intro filt shft
    simp [processSamples, LowPassFilter.processList, PitchShifter.processList]
  | cons s rest ih =>
    intro filt shft
    simp only [processSamples, List.map_cons, PitchShifter.processList,
      LowPassFilter.processList, ih, List.flatten_cons]

/-- Decoding ignores a trailing odd byte: on a block of odd length, dropping
the last byte yields the same sample sequence (`sampleCount = len / 2`). -/
lemma decodeSamples_dropLast : ∀ n (data : List ℕ), data.length ≤ n →
    data.length % 2 = 1 → decodeSamples data.dropLast = decodeSamples data := by
  intro n
  induction n with
  | zero =>
    intro data hlen hodd
    rw [Nat.le_zero, List.length_eq_zero] at hlen
    subst hlen
    simp at hodd
  | succ n ih =>
    intro data hlen hodd
    match data with
    | [] => simp at hodd
    | [b] => simp [decodeSamples]
    | b0 :: b1 :: rest =>
      have hr : rest.length % 2 = 1 := by
        simp only [List.length_cons] at hodd
        omega
      have hne : rest ≠ [] := by
        intro he
        rw [he] at hr
        simp at hr
      obtain ⟨r, rs, rfl⟩ := List.exists_cons_of_ne_nil hne
      have hlen' : (r :: rs).length ≤ n := by
        simp only [List.length_cons] at hlen ⊢
        omega
      have := ih (r :: rs) hlen' hr
      simp only [List.dropLast_cons₂, decodeSamples] at this ⊢
      rw [this]

/-! ## Claim theorems -/

/-- C3: for every input sample and every shifter state with ratio > 0,
`PitchShifter.process` appends the input to the tail of the pending queue,
computes `threshold = floor((1/ratio) * sampleRate)`, and then either removes
and returns the head (oldest) element if the queue length exceeds the
threshold, or returns 0.0 otherwise. -/
theorem pitchShifter_process_spec (s : PitchShifter) (x : ℚ) (h : 0 < s.factor) :
    s.threshold = (⌊1 / s.factor * (SAMPLE_RATE : ℚ)⌋).toNat ∧
    ((s.buffer ++ [x]).length > s.threshold →
      (s.process x).1 = (s.buffer ++ [x]).headI ∧
      (s.process x).2 = ⟨s.factor, (s.buffer ++ [x]).tail⟩) ∧
    (¬ (s.buffer ++ [x]).length > s.threshold →
      (s.process x).1 = 0 ∧
      (s.process x).2 = ⟨s.factor, s.buffer ++ [x]⟩) := by
  refine ⟨rfl, ?_, ?_⟩ <;> intro hc <;>
    simp only [List.length_append, List.length_singleton, gt_iff_lt] at hc <;>
    simp [PitchShifter.process, hc]

/-- Witness for C3 at the concrete shifter `⟨44100, []⟩` and input `5`. -/
theorem pitchShifter_process_spec_witness :
    0 < (PitchShifter.mk 44100 []).factor ∧
    ((PitchShifter.mk 44100 []).threshold =
      (⌊1 / (PitchShifter.mk 44100 []).factor * (SAMPLE_RATE : ℚ)⌋).toNat ∧
    ((([] : List ℚ) ++ [(5 : ℚ)]).length > (PitchShifter.mk 44100 []).threshold →
      ((PitchShifter.mk 44100 []).process 5).1 = (([] : List ℚ) ++ [(5 : ℚ)]).headI ∧
      ((PitchShifter.mk 44100 []).process 5).2 = ⟨44100, (([] : List ℚ) ++ [(5 : ℚ)]).tail⟩) ∧
    (¬ (([] : List ℚ) ++ [(5 : ℚ)]).length > (PitchShifter.mk 44100 []).threshold →
      ((PitchShifter.mk 44100 []).process 5).1 = 0 ∧
      ((PitchShifter.mk 44100 []).process 5).2 = ⟨44100, ([] : List ℚ) ++ [(5 : ℚ)]⟩)) :=
  ⟨by norm_num, pitchShifter_process_spec (PitchShifter.mk 44100 []) 5 (by norm_num)⟩

/-- C4: for every input sequence, the output of `LowPassFilter.process` at
step i equals the recurrence `prev_i = prev_(i-1) + alpha*(x_i - prev_(i-1))`
with `prev_0 = 0`, the stored `prev` after step i equals `prev_i`, and the
constructor indeed starts at `prev = 0`. -/
theorem lowPassFilter_recurrence (a : ℚ) (xs : List ℚ) :
    (LowPassFilter.processList ⟨a, 0⟩ xs).1 =
      (List.range xs.length).map
        (fun i => (xs.take (i + 1)).foldl (fun p x => p + a * (x - p)) 0) ∧
    (LowPassFilter.processList ⟨a, 0⟩ xs).2.prev =
      xs.foldl (fun p x => p + a * (x - p)) 0 ∧
    ∀ c r : ℚ, (LowPassFilter.create c r).prev = 0 := by
  refine ⟨?_, ?_, fun c r => rfl⟩ <;> simp [lpf_processList_eq]

/-- C9: `writeData` on a zero-length block succeeds (returns 0 = `len`) and
leaves the whole processor state — output queue, filter and shifter —
unchanged. -/
theorem writeData_zero_noop (p : AudioProcessor) : p.writeData [] = (0, p) := by
  simp [AudioProcessor.writeData, decodeSamples, processSamples]

/-- C7 counterexample: after consuming one sample, stopping and re-starting,
the output queue still holds the processed bytes and the shifter queue still
holds the sample — re-open is not fresh. -/
theorem reopen_not_fresh_cex :
    ((AudioProcessor.create.writeData [1, 0]).2.stopProcessing.startProcessing).outputBuffer
      = [0, 0] ∧
    ((AudioProcessor.create.writeData [1, 0]).2.stopProcessing.startProcessing).shifter.buffer
      = [1 / 32768] := by
  simp [AudioProcessor.writeData, AudioProcessor.create, AudioProcessor.stopProcessing,
    AudioProcessor.startProcessing, processSamples, decodeSamples, toSigned16,
    PitchShifter.process, PitchShifter.create, LowPassFilter.process,
    LowPassFilter.create, truncQ, encodeBytes, threshold_eight_tenths, normalize]

/-- C7 amended: a fresh state (empty output queue, empty shifter queue,
filter `prev = 0`) holds at construction only; `startProcessing` and
`stopProcessing` merely toggle the open mode and preserve the filter, the
shifter and the output queue, so all processing state persists across a
close/re-open cycle. -/
theorem reopen_preserves_state (p : AudioProcessor) :
    AudioProcessor.create.outputBuffer = [] ∧
    AudioProcessor.create.shifter.buffer = [] ∧
    AudioProcessor.create.filter.prev = 0 ∧
    AudioProcessor.create.isOpen = true ∧
    p.stopProcessing.startProcessing.filter = p.filter ∧
    p.stopProcessing.startProcessing.shifter = p.shifter ∧
    p.stopProcessing.startProcessing.outputBuffer = p.outputBuffer ∧
    p.stopProcessing.startProcessing.isOpen = true :=
  ⟨rfl, rfl, rfl, rfl, rfl, rfl, rfl, rfl⟩

/-- C5: `readData` returns at most `maxlen` bytes, returns zero bytes (not an
error) on an empty queue, returns exactly the head of the queue and keeps the
rest (FIFO), and `writeData` appends its processed bytes at the tail — so
repeated reads drain exactly what writes appended, in order. -/
theorem readData_fifo_spec (p : AudioProcessor) (maxlen : ℕ) :
    (p.readData maxlen).1.length ≤ maxlen ∧
    (p.outputBuffer = [] → p.readData maxlen = ([], p)) ∧
    (p.readData maxlen).1 = p.outputBuffer.take (min maxlen p.outputBuffer.length) ∧
    (p.readData maxlen).2 =
      { p with outputBuffer := p.outputBuffer.drop (min maxlen p.outputBuffer.length) } ∧
    ∀ data, (p.writeData data).2.outputBuffer =
      p.outputBuffer ++ (processSamples p.filter p.shifter (decodeSamples data)).1 := by
  obtain ⟨o, fl, sh, ob⟩ := p
  refine ⟨?_, ?_, ?_, ?_, fun data => rfl⟩
  · simp only [AudioProcessor.readData]
    split
    · simp
    · simp [List.length_take]
  · intro h
    obtain rfl : ob = [] := h
    simp [AudioProcessor.readData]
  · simp only [AudioProcessor.readData]
    split
    · rename_i h
      rw [List.isEmpty_iff] at h
      subst h
      simp
    · rfl
  · simp only [AudioProcessor.readData]
    split
    · rename_i h
      rw [List.isEmpty_iff] at h
      subst h
      simp
    · rfl

/-- C8: starting from an empty pending queue with a fixed ratio > 0, the
shifter's queue never exceeds `ceil((1/ratio)·sampleRate) + 1` entries after
any run; and each step grows the queue by one unless the appended queue
exceeds the threshold, in which case the head is also removed, leaving the
length unchanged. -/
theorem pitchShifter_buffer_bound (ratio : ℚ) (h : 0 < ratio) (xs : List ℚ) :
    ((PitchShifter.create ratio).processList xs).2.buffer.length ≤
      (⌈1 / ratio * (SAMPLE_RATE : ℚ)⌉).toNat + 1 ∧
    ∀ (s : PitchShifter) (x : ℚ),
      (s.process x).2.buffer.length =
        if s.buffer.length + 1 > s.threshold then s.buffer.length
        else s.buffer.length + 1 := by
  refine ⟨?_, pitch_process_length⟩
  have hb := pitch_processList_le xs (PitchShifter.create ratio)
    (by simp [PitchShifter.create])
  refine hb.trans ?_
  have hfc : (⌊1 / ratio * (SAMPLE_RATE : ℚ)⌋ : ℤ) ≤ ⌈1 / ratio * (SAMPLE_RATE : ℚ)⌉ :=
    Int.floor_le_ceil _
  calc (PitchShifter.create ratio).threshold
      ≤ (⌈1 / ratio * (SAMPLE_RATE : ℚ)⌉).toNat := Int.toNat_le_toNat hfc
    _ ≤ (⌈1 / ratio * (SAMPLE_RATE : ℚ)⌉).toNat + 1 := Nat.le_succ _

/-- Witness for C8 at ratio 44100 and inputs `[1, 2, 3]`. -/
theorem pitchShifter_buffer_bound_witness :
    0 < (44100 : ℚ) ∧
    (((PitchShifter.create 44100).processList [1, 2, 3]).2.buffer.length ≤
      (⌈1 / (44100 : ℚ) * (SAMPLE_RATE : ℚ)⌉).toNat + 1 ∧
    ∀ (s : PitchShifter) (x : ℚ),
      (s.process x).2.buffer.length =
        if s.buffer.length + 1 > s.threshold then s.buffer.length
        else s.buffer.length + 1) :=
  ⟨by norm_num, pitchShifter_buffer_bound 44100 (by norm_num) [1, 2, 3]⟩

/-- C10: with `alpha` in (0,1] and `previousOutput` in [-1,1], if every input
sample is in [-1,1] then every output and every stored `previousOutput`
remains in [-1,1] (each step is a convex combination). -/
theorem lowPassFilter_range_invariant (a p : ℚ) (xs : List ℚ)
    (ha0 : 0 < a) (ha1 : a ≤ 1) (hp0 : -1 ≤ p) (hp1 : p ≤ 1)
    (hx : ∀ x ∈ xs, -1 ≤ x ∧ x ≤ 1) :
    (∀ y ∈ (LowPassFilter.processList ⟨a, p⟩ xs).1, -1 ≤ y ∧ y ≤ 1) ∧
    -1 ≤ (LowPassFilter.processList ⟨a, p⟩ xs).2.prev ∧
    (LowPassFilter.processList ⟨a, p⟩ xs).2.prev ≤ 1 :=
  lpf_processList_bounds xs ⟨a, p⟩ ha0 ha1 hp0 hp1 hx

/-- Witness for C10 at `alpha = 1/2`, `prev = 0`, inputs `[1, -1]`. -/
theorem lowPassFilter_range_invariant_witness :
    (0 < (1 / 2 : ℚ) ∧ (1 / 2 : ℚ) ≤ 1 ∧ -1 ≤ (0 : ℚ) ∧ (0 : ℚ) ≤ 1 ∧
      ∀ x ∈ ([1, -1] : List ℚ), -1 ≤ x ∧ x ≤ 1) ∧
    ((∀ y ∈ (LowPassFilter.processList ⟨1 / 2, 0⟩ [1, -1]).1, -1 ≤ y ∧ y ≤ 1) ∧
     -1 ≤ (LowPassFilter.processList ⟨1 / 2, 0⟩ [1, -1]).2.prev ∧
     (LowPassFilter.processList ⟨1 / 2, 0⟩ [1, -1]).2.prev ≤ 1) :=
  ⟨⟨by norm_num, by norm_num, by norm_num, by norm_num, by
      intro x hx
      rcases List.mem_cons.mp hx with rfl | hx
      · norm_num
      · rcases List.mem_cons.mp hx with rfl | hx
        · norm_num
        · simp at hx⟩,
   lowPassFilter_range_invariant (1 / 2) 0 [1, -1] (by norm_num) (by norm_num)
     (by norm_num) (by norm_num)
     (by
      intro x hx
      rcases List.mem_cons.mp hx with rfl | hx
      · norm_num
      · rcases List.mem_cons.mp hx with rfl | hx
        · norm_num
        · simp at hx)⟩

/-- C2 counterexample: `writeData` on the 3-byte block `[0,0,0]` (not a
multiple of the 2-byte stride) does not reject the call: it returns the full
length 3 as written and mutates the state, appending the processed pair's two
bytes to the output queue and the decoded sample to the shifter queue. -/
theorem writeData_odd_accepted_cex :
    (AudioProcessor.create.writeData [0, 0, 0]).1 = 3 ∧
    (AudioProcessor.create.writeData [0, 0, 0]).2.outputBuffer = [0, 0] ∧
    (AudioProcessor.create.writeData [0, 0, 0]).2.shifter.buffer = [0] := by
  refine ⟨rfl, ?_, ?_⟩ <;>
    simp [AudioProcessor.writeData, AudioProcessor.create, processSamples, decodeSamples,
      toSigned16, PitchShifter.process, PitchShifter.create, LowPassFilter.process,
      LowPassFilter.create, truncQ, encodeBytes, threshold_eight_tenths, normalize]

/-- C2 amended: `writeData` never signals a format error on a byte count that
is not a multiple of the 2-byte stride; it decodes `floor(len/2)` samples,
silently ignores the trailing odd byte, processes the rest normally and
returns the full byte count as accepted. -/
theorem writeData_odd_trailing_byte (p : AudioProcessor) (data : List ℕ)
    (h : data.length % 2 = 1) :
    (p.writeData data).1 = data.length ∧
    (p.writeData data).2 = (p.writeData data.dropLast).2 := by
  refine ⟨rfl, ?_⟩
  simp only [AudioProcessor.writeData, decodeSamples_dropLast data.length data le_rfl h]

/-- Witness for C2 (amended) at the fresh processor and block `[0,0,0]`. -/
theorem writeData_odd_trailing_byte_witness :
    ([0, 0, 0] : List ℕ).length % 2 = 1 ∧
    ((AudioProcessor.create.writeData [0, 0, 0]).1 = ([0, 0, 0] : List ℕ).length ∧
     (AudioProcessor.create.writeData [0, 0, 0]).2 =
       (AudioProcessor.create.writeData ([0, 0, 0] : List ℕ).dropLast).2) :=
  ⟨by decide, writeData_odd_trailing_byte AudioProcessor.create [0, 0, 0] (by decide)⟩

/-- C6 counterexample: the spec-level configuration rejects a negative cutoff
and a negative pitch ratio, but the source constructors accept them:
`LowPassFilter(-300, 44100)` is built with a (negative) alpha and
`PitchShifter(-1)` simply stores the ratio.  No configuration error exists in
the code. -/
theorem configure_invalid_accepted_cex :
    specConfigureLowPass (-300) (SAMPLE_RATE : ℚ) = none ∧
    (LowPassFilter.create (-300) (SAMPLE_RATE : ℚ)).alpha < 0 ∧
    (LowPassFilter.create (-300) (SAMPLE_RATE : ℚ)).prev = 0 ∧
    specConfigurePitch (-1) = none ∧
    (PitchShifter.create (-1)).factor = -1 := by
  refine ⟨?_, ?_, rfl, ?_, rfl⟩
  · simp [specConfigureLowPass]
  · norm_num [LowPassFilter.create, PI, SAMPLE_RATE]
  · simp [specConfigurePitch]

/-- C6 amended: the source performs no configuration validation at all: for
any parameters (cutoff nonzero so that the embedded real-valued formula is
the source's), `LowPassFilter`'s constructor always succeeds, computing
`alpha = 1/(1/(2·PI·cutoff)·rate + 1)` and `prev = 0`, and `PitchShifter`'s
constructor always succeeds storing the ratio unchanged — even where the
spec-level configuration rejects. -/
theorem configure_no_validation (c r ratio : ℚ) (hc : c < 0) (hr : ratio ≤ 0) :
    specConfigureLowPass c r = none ∧
    specConfigurePitch ratio = none ∧
    LowPassFilter.create c r = ⟨1 / (1 / (2 * PI * c) * r + 1), 0⟩ ∧
    PitchShifter.create ratio = ⟨ratio, []⟩ := by
  refine ⟨?_, ?_, rfl, rfl⟩
  · simp [specConfigureLowPass, hc.le]
  · simp [specConfigurePitch, hr]

/-- Witness for C6 (amended) at cutoff -300, rate 44100, ratio -1. -/
theorem configure_no_validation_witness :
    ((-300 : ℚ) < 0 ∧ (-1 : ℚ) ≤ 0) ∧
    (specConfigureLowPass (-300) 44100 = none ∧
     specConfigurePitch (-1) = none ∧
     LowPassFilter.create (-300) 44100 = ⟨1 / (1 / (2 * PI * (-300)) * 44100 + 1), 0⟩ ∧
     PitchShifter.create (-1) = ⟨-1, []⟩) :=
  ⟨⟨by norm_num, by norm_num⟩,
   configure_no_validation (-300) 44100 (-1) (by norm_num) (by norm_num)⟩

/-- C1 counterexample: at a processor state with the default coefficients and
filter memory `prev = 1/32767`, writing the single silent sample `[0, 0]`
appends the encoded sample 0 (bytes `[0, 0]`), because the code truncates
`0.959… · 1` toward zero; the claim's `round(value*32767)`-with-clamping
write path would append the encoded sample 1 (bytes `[1, 0]`). -/
theorem writeData_round_clamp_cex :
    (AudioProcessor.writeData
      ⟨true, ⟨(LowPassFilter.create 300 (SAMPLE_RATE : ℚ)).alpha, 1 / 32767⟩,
       ⟨8 / 10, []⟩, []⟩ [0, 0]).2.outputBuffer = [0, 0] ∧
    (AudioProcessor.specWriteData
      ⟨true, ⟨(LowPassFilter.create 300 (SAMPLE_RATE : ℚ)).alpha, 1 / 32767⟩,
       ⟨8 / 10, []⟩, []⟩ [0, 0]).2.outputBuffer = [1, 0] := by
  constructor
  · simp only [AudioProcessor.writeData, processSamples, decodeSamples, toSigned16,
      PitchShifter.process, LowPassFilter.process, threshold_eight_tenths, normalize]
    rw [alpha_default_eq]
    norm_num [truncQ, encodeBytes]
  · simp only [AudioProcessor.specWriteData, specProcessSamples, decodeSamples, toSigned16,
      PitchShifter.process, LowPassFilter.process, threshold_eight_tenths, normalize]
    rw [alpha_default_eq]
    norm_num [specEncodeSample, round_eq, encodeBytes, min_def, max_def]

/-- C1 amended: for every input block handed to `writeData`, each decoded
16-bit sample is normalised as `sample / 32768`, passed through
`PitchShifter.process` then `LowPassFilter.process` in that fixed order, and
the result is converted back by truncating `value * 32767` toward zero (the
`static_cast<qint16>`, with no rounding to nearest and no clamping) before
its two bytes are appended to the output queue; the call returns the full
byte count. -/
theorem writeData_pipeline (p : AudioProcessor) (data : List ℕ) :
    p.writeData data =
      (data.length,
       { p with
          shifter := (p.shifter.processList ((decodeSamples data).map normalize)).2
          filter := (p.filter.processList
              (p.shifter.processList ((decodeSamples data).map normalize)).1).2
          outputBuffer := p.outputBuffer ++
            ((p.filter.processList
                (p.shifter.processList ((decodeSamples data).map normalize)).1).1.map
              (fun v => encodeBytes (truncQ (v * 32767)))).flatten }) := by
  simp [AudioProcessor.writeData, processSamples_eq]

end DarthVoice
